import Mathlib

/-!
Shallow embedding of the stored procedure `create_view_using_metadata`
(source file `sf_create_view_using_metadata.js`).

The procedure reads the column catalog of a table, and for every column of
declared type VARIANT runs a leaf-path discovery query; every ARRAY-typed
leaf path triggers a second, array-element discovery query.  The results of
these external queries are modelled here as explicit input data carried by
the `ColumnMeta` and `Element` structures.  The string accumulators
`col_list` and `table_list` and the counter `array_num` of the source are
modelled by `GenState`, and each loop of the source becomes a recursion
over the corresponding result list.
-/

/-- Result row of the array-element discovery query (the query built at
source lines 161-168): `path_name`, `attribute_type`, `attribute_name`
(called `alias_name` here for uniformity) and `f.index`. -/
structure ArrayElem where
  path_name : String
  attribute_type : String
  alias_name : String
  index : Nat
deriving DecidableEq

/-- Result row of the leaf-path discovery query (the query built at source
lines 113-120): `path_name`, `attribute_type`, `alias_name`.  The field
`arrayElems` carries the rows the array-element discovery query returns for
this path; the source only runs that query when `attribute_type = ARRAY`. -/
structure Element where
  path_name : String
  attribute_type : String
  alias_name : String
  arrayElems : List ArrayElem
deriving DecidableEq

/-- Result row of the catalog query (source lines 91-95): `COLUMN_NAME` and
`DATA_TYPE`.  The field `elements` carries the rows the leaf-path discovery
query returns for this column; the source only runs that query when
`data_type = VARIANT`. -/
structure ColumnMeta where
  column_name : String
  data_type : String
  elements : List Element
deriving DecidableEq

/-- Mutable state of one generation run: the accumulators `col_list` and
`table_list` and the counter `array_num` (source lines 74-77). -/
structure GenState where
  col_list : String
  table_list : String
  array_num : Nat
deriving DecidableEq

/-- Separator discipline shared by every accumulator of the source: a
fragment separator is appended only when the accumulator is non-empty
(for example source lines 146-147). -/
def addSep (s : String) : String :=
  if s = "" then s else s ++ ", \n"

/-- The DECODE expression of source line 72, as a function from the value
of `typeof(f.value)` to the reported attribute type: the first character
selects among ARRAY, BOOLEAN, FLOAT (for I and D), default STRING. -/
def attribute_type_match (typeof_value : String) : String :=
  let c := typeof_value.take 1
  if c = "A" then "ARRAY"
  else if c = "B" then "BOOLEAN"
  else if c = "I" then "FLOAT"
  else if c = "D" then "FLOAT"
  else "STRING"

/-- The DECODE expression of source line 86, used when COLUMN_TYPE selects
string datatypes: ARRAY stays ARRAY, everything else becomes STRING. -/
def attribute_type_string (typeof_value : String) : String :=
  if typeof_value = "ARRAY" then "ARRAY" else "STRING"

/-- First character of the ECMA-262 full Unicode uppercase mapping of a
character, as observed by `toUpperCase`.  The mapping of a character is a
non-empty character sequence; this function returns its first character
for every character whose mapping begins with an ASCII letter (the simple
mappings a-z, dotless i U+0131 to I and long s U+017F to S, and the
unconditional SpecialCasing expansions sharp s U+00DF to SS, U+01F0 to J
plus caron, U+1E96-U+1E9A to H T W Y A plus a combining mark, and the
latin ligatures U+FB00-U+FB06 to FF FI FL FFI FFL ST ST).  Every other
character maps either to itself or to a sequence beginning outside ASCII
and is returned unchanged, which the ASCII comparisons of source lines 83
and 85 cannot distinguish from the real mapping. -/
def jsUpperFirstChar (c : Char) : Char :=
  if c = 'ı' then 'I'
  else if c = 'ſ' then 'S'
  else if c = 'ß' then 'S'
  else if c = 'ǰ' then 'J'
  else if c = 'ẖ' then 'H'
  else if c = 'ẗ' then 'T'
  else if c = 'ẘ' then 'W'
  else if c = 'ẙ' then 'Y'
  else if c = 'ẚ' then 'A'
  else if c = 'ﬀ' then 'F'
  else if c = 'ﬁ' then 'F'
  else if c = 'ﬂ' then 'F'
  else if c = 'ﬃ' then 'F'
  else if c = 'ﬄ' then 'F'
  else if c = 'ﬅ' then 'S'
  else if c = 'ﬆ' then 'S'
  else c.toUpper

/-- JavaScript `s.toUpperCase().charAt(0)` (source lines 83 and 85): the
first character of the full-Unicode uppercased parameter as a
one-character string, or the empty string when the parameter is empty.
Because `toUpperCase` maps code points independently and every mapping is
non-empty, the first character of the uppercased string is the first
character of the mapping of the first character, `jsUpperFirstChar`. -/
def upperFirst (s : String) : String :=
  match s.data with
  | [] => ""
  | c :: _ => String.mk [jsUpperFirstChar c]

/-- Source line 83: COLUMN_CASE selects quoted aliases exactly when its
uppercased first character is M. -/
def isMatchCase (COLUMN_CASE : String) : Bool :=
  upperFirst COLUMN_CASE = "M"

/-- Source line 85: COLUMN_TYPE selects string datatypes exactly when its
uppercased first character is S. -/
def isStringTypes (COLUMN_TYPE : String) : Bool :=
  upperFirst COLUMN_TYPE = "S"

/-- The attribute-type expression actually embedded in the discovery
queries, after the parameter logic of source lines 85-86 ran. -/
def attribute_type (COLUMN_TYPE : String) (typeof_value : String) : String :=
  if isStringTypes COLUMN_TYPE then attribute_type_string typeof_value
  else attribute_type_match typeof_value

/-- Source line 84: the alias quote string is a double quote under match
case and empty otherwise. -/
def alias_dbl_quote (COLUMN_CASE : String) : String :=
  if isMatchCase COLUMN_CASE then "\"" else ""

/-- Body of the array-element loop (source lines 203-219).  The
accumulator pair is `(simple_array_col_list, object_array_col_list)`.  An
element whose path minus its first character is empty is a simple array
element (line 204); otherwise it is an object array element. -/
def arrayElemStep (quote col_name elem_path elem_alias : String) (array_num : Nat)
    (acc : String × String) (a : ArrayElem) : String × String :=
  if a.path_name.drop 1 = "" then
    (addSep acc.1
       ++ col_name ++ ":" ++ elem_path
       ++ "[" ++ toString a.index ++ "]"
       ++ "::" ++ a.attribute_type
       ++ " as " ++ quote ++ col_name ++ "_" ++ elem_alias ++ "_" ++ toString a.index ++ quote,
     acc.2)
  else
    (acc.1,
     addSep acc.2
       ++ "a" ++ toString array_num ++ ".value:" ++ a.path_name.drop 1
       ++ "::" ++ a.attribute_type
       ++ " as " ++ quote ++ col_name ++ "_" ++ elem_alias ++ a.alias_name ++ quote)

/-- The two candidate lists accumulated over all elements of one array
(the loop of source lines 203-219, started from two empty strings at
lines 157-158). -/
def arrayLists (quote col_name elem_path elem_alias : String) (array_num : Nat)
    (as : List ArrayElem) : String × String :=
  as.foldl (arrayElemStep quote col_name elem_path elem_alias array_num) ("", "")

/-- Handling of one ARRAY-typed leaf path (source lines 155-236):
increment `array_num`, accumulate the two candidate lists, then either
append the simple candidates (object list empty, lines 223-227) or append
the object candidates and register the LATERAL FLATTEN join source
(lines 230-235). -/
def processArrayElement (quote col_name : String) (st : GenState) (e : Element) : GenState :=
  let array_num := st.array_num + 1
  let lists := arrayLists quote col_name e.path_name e.alias_name array_num e.arrayElems
  if lists.2 = "" then
    { st with array_num := array_num,
              col_list := addSep st.col_list ++ lists.1 }
  else
    { st with array_num := array_num,
              col_list := addSep st.col_list ++ lists.2,
              table_list := st.table_list
                ++ ",\n LATERAL FLATTEN(" ++ col_name ++ ":" ++ e.path_name ++ ") a"
                ++ toString array_num }

/-- Handling of one non-ARRAY leaf path (source lines 143-152): one
fragment `col:path::type as col_alias`, with no quote around the alias. -/
def processLeafElement (col_name : String) (st : GenState) (e : Element) : GenState :=
  { st with col_list := addSep st.col_list
      ++ col_name ++ ":" ++ e.path_name
      ++ "::" ++ e.attribute_type
      ++ " as " ++ col_name ++ "_" ++ e.alias_name }

/-- Body of the leaf-path loop (source lines 143-236): non-ARRAY entries
emit one fragment, ARRAY entries expand the array. -/
def processElement (quote col_name : String) (st : GenState) (e : Element) : GenState :=
  if e.attribute_type ≠ "ARRAY" then processLeafElement col_name st e
  else processArrayElement quote col_name st e

/-- The leaf-path loop itself (source line 129): advance while there is a
next row AND its path is non-empty, so a row with an empty path terminates
the loop. -/
def processElements (quote col_name : String) (st : GenState) : List Element → GenState
  | [] => st
  | e :: es =>
    if e.path_name = "" then st
    else processElements quote col_name (processElement quote col_name st e) es

/-- Body of the catalog loop (source lines 106-248): VARIANT columns run
the leaf-path discovery and its loop, other columns append their bare
name (lines 240-247). -/
def processColumn (quote : String) (st : GenState) (c : ColumnMeta) : GenState :=
  if c.data_type = "VARIANT" then processElements quote c.column_name st c.elements
  else { st with col_list := addSep st.col_list ++ c.column_name }

/-- The catalog loop itself (source line 106). -/
def processColumns (quote : String) (st : GenState) : List ColumnMeta → GenState
  | [] => st
  | c :: cs => processColumns quote (processColumn quote st c) cs

/-- Initial state: empty column list, `table_list` initialized to
`SCHEMA_NAME.V_TAB_NM` (source line 74), counter at zero (line 77). -/
def initState (SCHEMA_NAME V_TAB_NM : String) : GenState :=
  { col_list := "", table_list := SCHEMA_NAME ++ "." ++ V_TAB_NM, array_num := 0 }

/-- Final state of one generation run over the catalog result. -/
def runState (SCHEMA_NAME V_TAB_NM COLUMN_CASE : String) (cols : List ColumnMeta) : GenState :=
  processColumns (alias_dbl_quote COLUMN_CASE) (initState SCHEMA_NAME V_TAB_NM) cols

/-- The CREATE VIEW statement assembled at source lines 251-253.  The
DATA_BASE and COLUMN_TYPE parameters only shape the external queries
whose results are the `cols` input, so they do not appear on the right
hand side. -/
def create_view_using_metadata (DATA_BASE SCHEMA_NAME V_TAB_NM COLUMN_CASE COLUMN_TYPE : String)
    (cols : List ColumnMeta) : String :=
  let st := runState SCHEMA_NAME V_TAB_NM COLUMN_CASE cols
  "CREATE OR REPLACE VIEW " ++ V_TAB_NM ++ "_VW AS \n"
    ++ "SELECT \n" ++ st.col_list ++ "\n"
    ++ "FROM " ++ st.table_list

/-- Specification-side join: the projection list consisting of exactly the
given entries, separated by the fragment separator. -/
def specCommaJoin : List String → String
  | [] => ""
  | [x] => x
  | x :: xs => x ++ ", \n" ++ specCommaJoin xs

/-- Tail form of `specCommaJoin`: every entry preceded by the separator. -/
def joinTail : List String → String
  | [] => ""
  | x :: xs => ", \n" ++ x ++ joinTail xs

/-- Specification-side predicate: the array discovery of this leaf path
contains at least one object-addressed element. -/
def elemTriggersAux (e : Element) : Bool :=
  (e.attribute_type == "ARRAY") && e.arrayElems.any fun a => a.path_name.drop 1 != ""

/-- Specification-side predicate: some leaf path actually reached by the
leaf-path loop (the loop stops at the first empty path) is an array with an
object-addressed element. -/
def elementsTriggerAux : List Element → Bool
  | [] => false
  | e :: es =>
    if e.path_name = "" then false
    else elemTriggersAux e || elementsTriggerAux es

/-- Specification-side predicate: some VARIANT column of the catalog result
triggers an auxiliary expansion source. -/
def columnsTriggerAux : List ColumnMeta → Bool
  | [] => false
  | c :: cs =>
    (if c.data_type = "VARIANT" then elementsTriggerAux c.elements else false)
      || columnsTriggerAux cs

/-! ## Helper lemmas -/

theorem append_eq_empty_iff (s t : String) : s ++ t = "" ↔ s = "" ∧ t = "" := by
  constructor
  · intro h
    have hd := congrArg String.data h
    simp only [String.data_append] at hd
    rcases List.append_eq_nil.mp hd with ⟨h1, h2⟩
    exact ⟨String.ext h1, String.ext h2⟩
  · rintro ⟨rfl, rfl⟩
    rfl

theorem append_ne_empty_left {s : String} (t : String) (h : s ≠ "") : s ++ t ≠ "" :=
  fun hc => h ((append_eq_empty_iff s t).mp hc).1

theorem append_ne_empty_right (s : String) {t : String} (h : t ≠ "") : s ++ t ≠ "" :=
  fun hc => h ((append_eq_empty_iff s t).mp hc).2

theorem addSep_eq_empty_iff (s : String) : addSep s = "" ↔ s = "" := by
  unfold addSep
  split
  · next h => simp [h]
  · next h => simp [append_eq_empty_iff, h]

theorem arrayElemStep_simple (quote col ep ea : String) (n : Nat) (acc : String × String)
    (a : ArrayElem) (h : a.path_name.drop 1 = "") :
    arrayElemStep quote col ep ea n acc a =
      (addSep acc.1
         ++ col ++ ":" ++ ep
         ++ "[" ++ toString a.index ++ "]"
         ++ "::" ++ a.attribute_type
         ++ " as " ++ quote ++ col ++ "_" ++ ea ++ "_" ++ toString a.index ++ quote,
       acc.2) := by
  simp [arrayElemStep, h]

theorem arrayElemStep_object (quote col ep ea : String) (n : Nat) (acc : String × String)
    (a : ArrayElem) (h : a.path_name.drop 1 ≠ "") :
    arrayElemStep quote col ep ea n acc a =
      (acc.1,
       addSep acc.2
         ++ "a" ++ toString n ++ ".value:" ++ a.path_name.drop 1
         ++ "::" ++ a.attribute_type
         ++ " as " ++ quote ++ col ++ "_" ++ ea ++ a.alias_name ++ quote) := by
  simp [arrayElemStep, h]

theorem arrayElemStep_object_snd_ne_empty (quote col ep ea : String) (n : Nat)
    (acc : String × String) (a : ArrayElem) (h : a.path_name.drop 1 ≠ "") :
    (arrayElemStep quote col ep ea n acc a).2 ≠ "" := by
  rw [arrayElemStep_object quote col ep ea n acc a h]
  intro hc
  have hl := congrArg String.length hc
  simp only [String.length_append, String.length_empty] at hl
  have ha : ("a" : String).length = 1 := rfl
  omega

theorem foldl_arrayElemStep_snd_eq_empty_iff (quote col ep ea : String) (n : Nat)
    (as : List ArrayElem) :
    ∀ acc : String × String,
      (as.foldl (arrayElemStep quote col ep ea n) acc).2 = "" ↔
        acc.2 = "" ∧ (as.any fun a => a.path_name.drop 1 != "") = false := by
  induction as with
  | nil => intro acc; simp
  | cons a as ih =>
    intro acc
    rw [List.foldl_cons, ih]
    by_cases h : a.path_name.drop 1 = ""
    · rw [arrayElemStep_simple quote col ep ea n acc a h]
      simp [h]
    · have h2 := arrayElemStep_object_snd_ne_empty quote col ep ea n acc a h
      simp [h2, h]

theorem arrayLists_snd_eq_empty_iff (quote col ep ea : String) (n : Nat)
    (as : List ArrayElem) :
    (arrayLists quote col ep ea n as).2 = "" ↔
      (as.any fun a => a.path_name.drop 1 != "") = false := by
  unfold arrayLists
  rw [foldl_arrayElemStep_snd_eq_empty_iff]
  simp

/-! ## Character-level facts for the mode parameters -/

theorem toUpper_eq_M (c : Char) : c.toUpper = 'M' ↔ c = 'M' ∨ c = 'm' := by
  have hdef : c.toUpper =
      if c.toNat ≥ 97 ∧ c.toNat ≤ 122 then Char.ofNat (c.toNat - 32) else c := rfl
  rw [hdef]
  by_cases h : c.toNat ≥ 97 ∧ c.toNat ≤ 122
  · rw [if_pos h]
    obtain ⟨h1, h2⟩ := h
    generalize hn : c.toNat = n at h1 h2
    have hc : c = Char.ofNat n := by rw [← hn, Char.ofNat_toNat]
    subst hc
    interval_cases n <;> decide
  · rw [if_neg h]
    constructor
    · exact fun hc => Or.inl hc
    · rintro (rfl | rfl)
      · rfl
      · exact absurd (by decide) h

theorem toUpper_eq_S (c : Char) : c.toUpper = 'S' ↔ c = 'S' ∨ c = 's' := by
  have hdef : c.toUpper =
      if c.toNat ≥ 97 ∧ c.toNat ≤ 122 then Char.ofNat (c.toNat - 32) else c := rfl
  rw [hdef]
  by_cases h : c.toNat ≥ 97 ∧ c.toNat ≤ 122
  · rw [if_pos h]
    obtain ⟨h1, h2⟩ := h
    generalize hn : c.toNat = n at h1 h2
    have hc : c = Char.ofNat n := by rw [← hn, Char.ofNat_toNat]
    subst hc
    interval_cases n <;> decide
  · rw [if_neg h]
    constructor
    · exact fun hc => Or.inl hc
    · rintro (rfl | rfl)
      · rfl
      · exact absurd (by decide) h

theorem upperFirst_cons (c : Char) (cs : List Char) :
    upperFirst (String.mk (c :: cs)) = String.mk [jsUpperFirstChar c] := rfl

theorem jsUpperFirstChar_eq_M (c : Char) :
    jsUpperFirstChar c = 'M' ↔ c = 'M' ∨ c = 'm' := by
  by_cases h : c = 'ı' ∨ c = 'ſ' ∨ c = 'ß' ∨ c = 'ǰ' ∨ c = 'ẖ' ∨ c = 'ẗ' ∨ c = 'ẘ'
      ∨ c = 'ẙ' ∨ c = 'ẚ' ∨ c = 'ﬀ' ∨ c = 'ﬁ' ∨ c = 'ﬂ' ∨ c = 'ﬃ' ∨ c = 'ﬄ'
      ∨ c = 'ﬅ' ∨ c = 'ﬆ'
  · rcases h with rfl | rfl | rfl | rfl | rfl | rfl | rfl | rfl | rfl | rfl | rfl | rfl
      | rfl | rfl | rfl | rfl <;> decide
  · push_neg at h
    obtain ⟨h1, h2, h3, h4, h5, h6, h7, h8, h9, h10, h11, h12, h13, h14, h15, h16⟩ := h
    have hdef : jsUpperFirstChar c = c.toUpper := by
      simp [jsUpperFirstChar, h1, h2, h3, h4, h5, h6, h7, h8, h9, h10, h11, h12, h13,
        h14, h15, h16]
    rw [hdef, toUpper_eq_M]

theorem jsUpperFirstChar_eq_S (c : Char) :
    jsUpperFirstChar c = 'S'
      ↔ c = 'S' ∨ c = 's' ∨ c = 'ſ' ∨ c = 'ß' ∨ c = 'ﬅ' ∨ c = 'ﬆ' := by
  by_cases h : c = 'ı' ∨ c = 'ſ' ∨ c = 'ß' ∨ c = 'ǰ' ∨ c = 'ẖ' ∨ c = 'ẗ' ∨ c = 'ẘ'
      ∨ c = 'ẙ' ∨ c = 'ẚ' ∨ c = 'ﬀ' ∨ c = 'ﬁ' ∨ c = 'ﬂ' ∨ c = 'ﬃ' ∨ c = 'ﬄ'
      ∨ c = 'ﬅ' ∨ c = 'ﬆ'
  · rcases h with rfl | rfl | rfl | rfl | rfl | rfl | rfl | rfl | rfl | rfl | rfl | rfl
      | rfl | rfl | rfl | rfl <;> decide
  · push_neg at h
    obtain ⟨h1, h2, h3, h4, h5, h6, h7, h8, h9, h10, h11, h12, h13, h14, h15, h16⟩ := h
    have hdef : jsUpperFirstChar c = c.toUpper := by
      simp [jsUpperFirstChar, h1, h2, h3, h4, h5, h6, h7, h8, h9, h10, h11, h12, h13,
        h14, h15, h16]
    rw [hdef, toUpper_eq_S]
    constructor
    · rintro (rfl | rfl)
      · exact Or.inl rfl
      · exact Or.inr (Or.inl rfl)
    · rintro (rfl | rfl | rfl | rfl | rfl | rfl)
      · exact Or.inl rfl
      · exact Or.inr rfl
      · exact absurd rfl h2
      · exact absurd rfl h3
      · exact absurd rfl h15
      · exact absurd rfl h16

theorem mk_singleton_eq_M (x : Char) : String.mk [x] = "M" ↔ x = 'M' := by
  constructor
  · intro h
    have hd : [x] = ['M'] := congrArg String.data h
    exact (List.cons_eq_cons.mp hd).1
  · rintro rfl
    rfl

theorem mk_singleton_eq_S (x : Char) : String.mk [x] = "S" ↔ x = 'S' := by
  constructor
  · intro h
    have hd : [x] = ['S'] := congrArg String.data h
    exact (List.cons_eq_cons.mp hd).1
  · rintro rfl
    rfl

/-! ## Claim theorems -/

/-- C10 counterexample: a COLUMN_TYPE beginning with long s U+017F selects
string datatypes, because its full Unicode uppercase image begins with S,
although its first character is neither S nor s — so selection is not the
claimed case-insensitive comparison of the raw first character. -/
theorem c10_counterexample :
    ("ſtring datatypes".data.head? = some 'ſ')
    ∧ 'ſ' ≠ 'S' ∧ 'ſ' ≠ 's'
    ∧ isStringTypes "ſtring datatypes" = true := by
  decide

/-- C10 amended: mode selection looks only at the first character of each
mode parameter, through its full Unicode uppercase image.  A COLUMN_CASE
whose first character uppercases to M (exactly M or m) selects quoted
aliases and any other value (the empty string included) selects the
unquoted uppercase mode; a COLUMN_TYPE whose first character uppercases to
a sequence beginning with S (exactly S, s, long s U+017F, sharp s U+00DF,
or the ligatures U+FB05 and U+FB06) selects string types and any other
value selects match types. -/
theorem c10_mode_selection_amended :
    (∀ (c : Char) (cs : List Char),
        isMatchCase (String.mk (c :: cs)) = (c == 'M' || c == 'm'))
    ∧ isMatchCase "" = false
    ∧ (∀ (c : Char) (cs : List Char),
        isStringTypes (String.mk (c :: cs)) =
          (c == 'S' || c == 's' || c == 'ſ' || c == 'ß' || c == 'ﬅ' || c == 'ﬆ'))
    ∧ isStringTypes "" = false := by
  refine ⟨fun c cs => ?_, rfl, fun c cs => ?_, rfl⟩
  · rw [Bool.eq_iff_iff]
    simp only [isMatchCase, upperFirst_cons, decide_eq_true_eq, Bool.or_eq_true,
      beq_iff_eq, mk_singleton_eq_M, jsUpperFirstChar_eq_M]
  · rw [Bool.eq_iff_iff]
    simp only [isStringTypes, upperFirst_cons, decide_eq_true_eq, Bool.or_eq_true,
      beq_iff_eq, mk_singleton_eq_S, jsUpperFirstChar_eq_S]
    tauto

/-- C5: under string datatypes (COLUMN_TYPE starting with S) the reported
type of every non-ARRAY attribute is STRING and ARRAY attributes keep
ARRAY; in every mode the fragment emitted for a non-ARRAY leaf path casts
to exactly the reported attribute type, so under match types the mapped
type equals the oracle-reported one. -/
theorem c5_type_policy :
    (∀ (COLUMN_TYPE t : String), isStringTypes COLUMN_TYPE = true → t ≠ "ARRAY" →
        attribute_type COLUMN_TYPE t = "STRING")
    ∧ (∀ COLUMN_TYPE : String, isStringTypes COLUMN_TYPE = true →
        attribute_type COLUMN_TYPE "ARRAY" = "ARRAY")
    ∧ (∀ (COLUMN_TYPE t : String), isStringTypes COLUMN_TYPE = false →
        attribute_type COLUMN_TYPE t = attribute_type_match t)
    ∧ (∀ (quote col : String) (st : GenState) (e : Element),
        e.attribute_type ≠ "ARRAY" →
        processElement quote col st e =
          { st with col_list := addSep st.col_list
              ++ col ++ ":" ++ e.path_name
              ++ "::" ++ e.attribute_type
              ++ " as " ++ col ++ "_" ++ e.alias_name }) := by
  refine ⟨?_, ?_, ?_, ?_⟩
  · intro CT t h ht
    simp [attribute_type, h, attribute_type_string, ht]
  · intro CT h
    simp [attribute_type, h, attribute_type_string]
  · intro CT t h
    simp [attribute_type, h]
  · intro quote col st e h
    simp [processElement, h, processLeafElement]

theorem c5_type_policy_witness :
    attribute_type "string datatypes" "BOOLEAN" = "STRING"
    ∧ attribute_type "string datatypes" "ARRAY" = "ARRAY"
    ∧ processElement "" "j" ⟨"", "s.t", 0⟩ ⟨"\"n\"", "FLOAT", "n", []⟩ =
        { col_list := addSep "" ++ "j" ++ ":" ++ "\"n\"" ++ "::" ++ "FLOAT"
            ++ " as " ++ "j" ++ "_" ++ "n",
          table_list := "s.t", array_num := 0 } :=
  ⟨c5_type_policy.1 "string datatypes" "BOOLEAN" (by decide) (by decide),
   c5_type_policy.2.1 "string datatypes" (by decide),
   c5_type_policy.2.2.2 "" "j" ⟨"", "s.t", 0⟩ ⟨"\"n\"", "FLOAT", "n", []⟩ (by decide)⟩

/-- C8: for every object-array element (relative path with more than the
leading separator character) observed under array id n, the fragment
accumulated for it is the expression `a<n>.value:` followed by the path
minus its leading character, a cast to the reported type, and the alias
col, underscore, element alias and member alias concatenated without a
separator; the simple candidate list is untouched. -/
theorem c8_object_fragment (quote col ep ea : String) (n : Nat)
    (pre : List ArrayElem) (a : ArrayElem) (h : a.path_name.drop 1 ≠ "") :
    (arrayLists quote col ep ea n (pre ++ [a])).2 =
      addSep (arrayLists quote col ep ea n pre).2
        ++ "a" ++ toString n ++ ".value:" ++ a.path_name.drop 1
        ++ "::" ++ a.attribute_type
        ++ " as " ++ quote ++ col ++ "_" ++ ea ++ a.alias_name ++ quote
    ∧ (arrayLists quote col ep ea n (pre ++ [a])).1 =
      (arrayLists quote col ep ea n pre).1 := by
  unfold arrayLists
  rw [List.foldl_append, List.foldl_cons, List.foldl_nil,
    arrayElemStep_object quote col ep ea n _ a h]
  exact ⟨rfl, rfl⟩

theorem c8_object_fragment_witness :
    (arrayLists "" "j" "\"p\"" "p" 1 ([] ++ [⟨".t", "STRING", "t", 0⟩])).2 =
      addSep (arrayLists "" "j" "\"p\"" "p" 1 []).2
        ++ "a" ++ toString 1 ++ ".value:" ++ (".t" : String).drop 1
        ++ "::" ++ "STRING"
        ++ " as " ++ "" ++ "j" ++ "_" ++ "p" ++ "t" ++ ""
    ∧ (arrayLists "" "j" "\"p\"" "p" 1 ([] ++ [⟨".t", "STRING", "t", 0⟩])).1 =
      (arrayLists "" "j" "\"p\"" "p" 1 []).1 :=
  c8_object_fragment "" "j" "\"p\"" "p" 1 [] ⟨".t", "STRING", "t", 0⟩ (by decide)

/-- C9: when the array-element discovery of an ARRAY-typed leaf path
returns zero rows while the column list is already non-empty, the source
still appends the fragment separator followed by the empty candidate list,
leaving a dangling comma (an empty projection entry) in the view. -/
theorem c9_dangling_separator (quote col : String) (st : GenState) (e : Element)
    (harr : e.attribute_type = "ARRAY") (hempty : e.arrayElems = [])
    (hcol : st.col_list ≠ "") :
    processElement quote col st e =
      { st with col_list := st.col_list ++ ", \n", array_num := st.array_num + 1 } := by
  simp [processElement, harr, processArrayElement, hempty, arrayLists, addSep, hcol]

theorem c9_dangling_separator_witness :
    processElement "" "j" ⟨"C", "s.t", 0⟩ ⟨"\"p\"", "ARRAY", "p", []⟩ =
      { col_list := "C" ++ ", \n", table_list := "s.t", array_num := 0 + 1 } :=
  c9_dangling_separator "" "j" ⟨"C", "s.t", 0⟩ ⟨"\"p\"", "ARRAY", "p", []⟩
    (by decide) (by decide) (by decide)

theorem processElement_array_num_le (quote col : String) (st : GenState) (e : Element) :
    st.array_num ≤ (processElement quote col st e).array_num := by
  by_cases h : e.attribute_type = "ARRAY"
  · simp only [processElement, h, ne_eq, not_true_eq_false, if_false, processArrayElement]
    split <;> exact Nat.le_succ _
  · simp [processElement, h, processLeafElement]

theorem processElements_array_num_le (quote col : String) :
    ∀ (es : List Element) (st : GenState),
      st.array_num ≤ (processElements quote col st es).array_num := by
  intro es
  induction es with
  | nil => intro st; exact Nat.le_refl _
  | cons e es ih =>
    intro st
    simp only [processElements]
    split
    · exact Nat.le_refl _
    · exact Nat.le_trans (processElement_array_num_le quote col st e) (ih _)

theorem processColumn_array_num_le (quote : String) (st : GenState) (c : ColumnMeta) :
    st.array_num ≤ (processColumn quote st c).array_num := by
  by_cases h : c.data_type = "VARIANT"
  · simp only [processColumn, h, if_true]
    exact processElements_array_num_le quote c.column_name c.elements st
  · simp [processColumn, h]

theorem processColumns_array_num_le (quote : String) :
    ∀ (cols : List ColumnMeta) (st : GenState),
      st.array_num ≤ (processColumns quote st cols).array_num := by
  intro cols
  induction cols with
  | nil => intro st; exact Nat.le_refl _
  | cons c cs ih =>
    intro st
    simp only [processColumns]
    exact Nat.le_trans (processColumn_array_num_le quote st c) (ih _)

/-- C7: the array counter starts at zero, every ARRAY-typed leaf path
bumps it by exactly one (the freshly allocated id), every other step leaves
it unchanged, and it never decreases over any run, so ids of registered
auxiliary sources are strictly increasing and never reused. -/
theorem c7_array_counter :
    (∀ SCHEMA_NAME V_TAB_NM : String, (initState SCHEMA_NAME V_TAB_NM).array_num = 0)
    ∧ (∀ (quote col : String) (st : GenState) (e : Element),
        e.attribute_type = "ARRAY" →
        (processElement quote col st e).array_num = st.array_num + 1)
    ∧ (∀ (quote col : String) (st : GenState) (e : Element),
        e.attribute_type ≠ "ARRAY" →
        (processElement quote col st e).array_num = st.array_num)
    ∧ (∀ (quote col : String) (es : List Element) (st : GenState),
        st.array_num ≤ (processElements quote col st es).array_num)
    ∧ (∀ (quote : String) (cols : List ColumnMeta) (st : GenState),
        st.array_num ≤ (processColumns quote st cols).array_num) := by
  refine ⟨fun _ _ => rfl, ?_, ?_,
    fun quote col es st => processElements_array_num_le quote col es st,
    fun quote cols st => processColumns_array_num_le quote cols st⟩
  · intro quote col st e h
    simp only [processElement, h, ne_eq, not_true_eq_false, if_false, processArrayElement]
    split <;> rfl
  · intro quote col st e h
    simp [processElement, h, processLeafElement]

theorem c7_array_counter_witness :
    (initState "s" "t").array_num = 0
    ∧ (processElement "" "j" ⟨"", "s.t", 4⟩ ⟨"\"p\"", "ARRAY", "p", []⟩).array_num = 4 + 1
    ∧ (processElement "" "j" ⟨"", "s.t", 4⟩ ⟨"\"n\"", "STRING", "n", []⟩).array_num = 4
    ∧ (4 : Nat) ≤ (processElements "" "j" ⟨"", "s.t", 4⟩ []).array_num
    ∧ (4 : Nat) ≤ (processColumns "" ⟨"", "s.t", 4⟩ []).array_num :=
  ⟨c7_array_counter.1 "s" "t",
   c7_array_counter.2.1 "" "j" ⟨"", "s.t", 4⟩ ⟨"\"p\"", "ARRAY", "p", []⟩ (by decide),
   c7_array_counter.2.2.1 "" "j" ⟨"", "s.t", 4⟩ ⟨"\"n\"", "STRING", "n", []⟩ (by decide),
   c7_array_counter.2.2.2.1 "" "j" [] ⟨"", "s.t", 4⟩,
   c7_array_counter.2.2.2.2 "" [] ⟨"", "s.t", 4⟩⟩

/-- C1: once all elements of an ARRAY-typed leaf path are observed, the
presence of at least one object-addressed element discards every simple
candidate, appends exactly the object candidate list to the projection
list, and registers exactly one LATERAL FLATTEN source with origin
expression col:path and the freshly allocated id; otherwise exactly the
simple candidate list is appended and the source list is untouched. -/
theorem c1_array_decision (quote col : String) (st : GenState) (e : Element)
    (harr : e.attribute_type = "ARRAY") :
    ((e.arrayElems.any fun a => a.path_name.drop 1 != "") = true →
      processElement quote col st e =
        { col_list := addSep st.col_list
            ++ (arrayLists quote col e.path_name e.alias_name (st.array_num + 1) e.arrayElems).2,
          table_list := st.table_list
            ++ ",\n LATERAL FLATTEN(" ++ col ++ ":" ++ e.path_name ++ ") a"
            ++ toString (st.array_num + 1),
          array_num := st.array_num + 1 })
    ∧ ((e.arrayElems.any fun a => a.path_name.drop 1 != "") = false →
      processElement quote col st e =
        { col_list := addSep st.col_list
            ++ (arrayLists quote col e.path_name e.alias_name (st.array_num + 1) e.arrayElems).1,
          table_list := st.table_list,
          array_num := st.array_num + 1 }) := by
  constructor
  · intro hany
    have h2 : (arrayLists quote col e.path_name e.alias_name (st.array_num + 1) e.arrayElems).2
        ≠ "" := by
      rw [Ne, arrayLists_snd_eq_empty_iff]
      simp [hany]
    simp [processElement, harr, processArrayElement, h2]
  · intro hany
    have h2 : (arrayLists quote col e.path_name e.alias_name (st.array_num + 1) e.arrayElems).2
        = "" := by
      rw [arrayLists_snd_eq_empty_iff]
      exact hany
    simp [processElement, harr, processArrayElement, h2]

theorem c1_array_decision_witness :
    (([⟨".t", "STRING", "t", 0⟩] : List ArrayElem).any fun a => a.path_name.drop 1 != "") = true
    ∧ processElement "" "j" ⟨"", "s.t", 0⟩ ⟨"\"p\"", "ARRAY", "p", [⟨".t", "STRING", "t", 0⟩]⟩ =
        { col_list := addSep ""
            ++ (arrayLists "" "j" "\"p\"" "p" (0 + 1) [⟨".t", "STRING", "t", 0⟩]).2,
          table_list := "s.t"
            ++ ",\n LATERAL FLATTEN(" ++ "j" ++ ":" ++ "\"p\"" ++ ") a"
            ++ toString (0 + 1),
          array_num := 0 + 1 } :=
  ⟨by decide,
   (c1_array_decision "" "j" ⟨"", "s.t", 0⟩ ⟨"\"p\"", "ARRAY", "p", [⟨".t", "STRING", "t", 0⟩]⟩
      (by decide)).1 (by decide)⟩

/-- C3 counterexample: an empty-path entry at the head of the enumeration
prevents the following non-empty entry from being processed, while the
same non-empty entry alone does produce a fragment. -/
theorem c3_counterexample :
    processElements "" "j" ⟨"", "s.t", 0⟩
        [⟨"", "STRING", "x", []⟩, ⟨"\"a\"", "STRING", "a", []⟩] = ⟨"", "s.t", 0⟩
    ∧ processElements "" "j" ⟨"", "s.t", 0⟩
        [⟨"\"a\"", "STRING", "a", []⟩] ≠ ⟨"", "s.t", 0⟩ := by
  decide

/-- C3 amended: the entries of the enumeration are processed in order up to
but not including the first empty-path entry (a non-ARRAY entry yielding
one fragment and an ARRAY entry triggering array expansion); the first
empty-path entry terminates the processing of that column, so every entry
after it is skipped. -/
theorem c3_empty_path_truncates (quote col : String) (st : GenState)
    (pre : List Element) (e : Element) (rest : List Element)
    (hpre : ∀ x ∈ pre, x.path_name ≠ "") (he : e.path_name = "") :
    processElements quote col st (pre ++ e :: rest) = processElements quote col st pre
    ∧ processElements quote col st pre = pre.foldl (processElement quote col) st := by
  revert st hpre
  induction pre with
  | nil => intro st _; simp [processElements, he]
  | cons p ps ih =>
    intro st hpre
    have hp : p.path_name ≠ "" := hpre p (List.mem_cons_self p ps)
    have hps : ∀ x ∈ ps, x.path_name ≠ "" := fun x hx => hpre x (List.mem_cons_of_mem p hx)
    obtain ⟨ih1, ih2⟩ := ih (processElement quote col st p) hps
    constructor
    · calc processElements quote col st ((p :: ps) ++ e :: rest)
          = processElements quote col (processElement quote col st p) (ps ++ e :: rest) := by
            simp [processElements, hp]
      _ = processElements quote col (processElement quote col st p) ps := ih1
      _ = processElements quote col st (p :: ps) := by simp [processElements, hp]
    · calc processElements quote col st (p :: ps)
          = processElements quote col (processElement quote col st p) ps := by
            simp [processElements, hp]
      _ = ps.foldl (processElement quote col) (processElement quote col st p) := ih2
      _ = (p :: ps).foldl (processElement quote col) st := rfl

theorem c3_empty_path_truncates_witness :
    processElements "" "j" ⟨"", "s.t", 0⟩
        ([⟨"\"a\"", "STRING", "a", []⟩] ++ ⟨"", "STRING", "x", []⟩ :: [⟨"\"b\"", "STRING", "b", []⟩])
      = processElements "" "j" ⟨"", "s.t", 0⟩ [⟨"\"a\"", "STRING", "a", []⟩]
    ∧ processElements "" "j" ⟨"", "s.t", 0⟩ [⟨"\"a\"", "STRING", "a", []⟩]
      = ([⟨"\"a\"", "STRING", "a", []⟩] : List Element).foldl (processElement "" "j") ⟨"", "s.t", 0⟩ :=
  c3_empty_path_truncates "" "j" ⟨"", "s.t", 0⟩
    [⟨"\"a\"", "STRING", "a", []⟩] ⟨"", "STRING", "x", []⟩ [⟨"\"b\"", "STRING", "b", []⟩]
    (by decide) (by decide)

theorem processColumns_scalar (quote : String) :
    ∀ (cols : List ColumnMeta) (st : GenState),
      (∀ c ∈ cols, c.data_type ≠ "VARIANT") →
      processColumns quote st cols =
        { st with col_list := cols.foldl (fun acc c => addSep acc ++ c.column_name) st.col_list } := by
  intro cols
  induction cols with
  | nil => intro st _; rfl
  | cons c cs ih =>
    intro st h
    have hc : c.data_type ≠ "VARIANT" := h c (List.mem_cons_self c cs)
    simp only [processColumns, processColumn, if_neg hc]
    rw [ih _ (fun x hx => h x (List.mem_cons_of_mem c hx))]
    rfl

theorem foldl_addSep_eq_joinTail :
    ∀ (names : List String) (acc : String), acc ≠ "" →
      names.foldl (fun a s => addSep a ++ s) acc = acc ++ joinTail names := by
  intro names
  induction names with
  | nil => intro acc _; simp [joinTail]
  | cons x xs ih =>
    intro acc h
    rw [List.foldl_cons]
    have hstep : addSep acc ++ x = acc ++ ", \n" ++ x := by simp [addSep, h]
    rw [hstep]
    have hne : acc ++ ", \n" ++ x ≠ "" := by
      apply append_ne_empty_left
      apply append_ne_empty_right
      decide
    rw [ih _ hne]
    simp [joinTail, String.append_assoc]

theorem specCommaJoin_eq_joinTail :
    ∀ (x : String) (xs : List String), specCommaJoin (x :: xs) = x ++ joinTail xs := by
  intro x xs
  induction xs generalizing x with
  | nil => simp [specCommaJoin, joinTail]
  | cons y ys ih => simp [specCommaJoin, joinTail, ih, String.append_assoc]

theorem foldl_addSep_specCommaJoin (names : List String) (h : ∀ x ∈ names, x ≠ "") :
    names.foldl (fun a s => addSep a ++ s) "" = specCommaJoin names := by
  cases names with
  | nil => rfl
  | cons n ns =>
    have hn : n ≠ "" := h n (List.mem_cons_self n ns)
    rw [List.foldl_cons]
    have h0 : addSep "" ++ n = n := by simp [addSep]
    rw [h0, foldl_addSep_eq_joinTail ns n hn, specCommaJoin_eq_joinTail]

/-- C4: a catalog result with only non-VARIANT columns generates a view
whose projection list is exactly the sequence of column names in catalog
order, with no cast and no alias, over the bare base table. -/
theorem c4_scalar_passthrough (DATA_BASE SCHEMA_NAME V_TAB_NM COLUMN_CASE COLUMN_TYPE : String)
    (cols : List ColumnMeta)
    (h1 : ∀ c ∈ cols, c.data_type ≠ "VARIANT")
    (h2 : ∀ c ∈ cols, c.column_name ≠ "") :
    create_view_using_metadata DATA_BASE SCHEMA_NAME V_TAB_NM COLUMN_CASE COLUMN_TYPE cols =
      "CREATE OR REPLACE VIEW " ++ V_TAB_NM ++ "_VW AS \n"
        ++ "SELECT \n" ++ specCommaJoin (cols.map ColumnMeta.column_name) ++ "\n"
        ++ "FROM " ++ (SCHEMA_NAME ++ "." ++ V_TAB_NM) := by
  have hnames : ∀ x ∈ cols.map ColumnMeta.column_name, x ≠ "" := by
    intro x hx
    obtain ⟨c, hc, rfl⟩ := List.mem_map.mp hx
    exact h2 c hc
  have hfold : cols.foldl (fun acc c => addSep acc ++ c.column_name) "" =
      specCommaJoin (cols.map ColumnMeta.column_name) := by
    rw [← foldl_addSep_specCommaJoin _ hnames, List.foldl_map]
  unfold create_view_using_metadata runState
  rw [processColumns_scalar _ cols _ h1]
  simp only [initState, hfold, String.append_assoc]

theorem c4_scalar_passthrough_witness :
    create_view_using_metadata "db" "s" "t" "uppercase cols" "match datatypes"
      [⟨"ID", "NUMBER", []⟩, ⟨"NAME", "TEXT", []⟩] =
      "CREATE OR REPLACE VIEW " ++ "t" ++ "_VW AS \n"
        ++ "SELECT \n"
        ++ specCommaJoin (([⟨"ID", "NUMBER", []⟩, ⟨"NAME", "TEXT", []⟩] :
              List ColumnMeta).map ColumnMeta.column_name) ++ "\n"
        ++ "FROM " ++ ("s" ++ "." ++ "t") :=
  c4_scalar_passthrough "db" "s" "t" "uppercase cols" "match datatypes"
    [⟨"ID", "NUMBER", []⟩, ⟨"NAME", "TEXT", []⟩] (by decide) (by decide)

theorem flatten_clause_ne_empty (col ep : String) (n : Nat) :
    ",\n LATERAL FLATTEN(" ++ col ++ ":" ++ ep ++ ") a" ++ toString n ≠ "" := by
  intro hc
  have hl := congrArg String.length hc
  simp only [String.length_append, String.length_empty] at hl
  have h0 : 0 < (",\n LATERAL FLATTEN(" : String).length := by decide
  omega

theorem processElement_table_list (quote col : String) (st : GenState) (e : Element) :
    (processElement quote col st e).table_list =
      if elemTriggersAux e then
        st.table_list
          ++ (",\n LATERAL FLATTEN(" ++ col ++ ":" ++ e.path_name ++ ") a"
              ++ toString (st.array_num + 1))
      else st.table_list := by
  by_cases harr : e.attribute_type = "ARRAY"
  · by_cases hany : (e.arrayElems.any fun a => a.path_name.drop 1 != "") = true
    · have htrig : elemTriggersAux e = true := by
        simp [elemTriggersAux, harr, hany]
      have h2 : (arrayLists quote col e.path_name e.alias_name (st.array_num + 1) e.arrayElems).2
          ≠ "" := by
        rw [Ne, arrayLists_snd_eq_empty_iff]
        simp [hany]
      rw [if_pos htrig]
      simp [processElement, harr, processArrayElement, h2, String.append_assoc]
    · have hanyf : (e.arrayElems.any fun a => a.path_name.drop 1 != "") = false := by
        simpa using hany
      have htrig : elemTriggersAux e = false := by
        simp [elemTriggersAux, hanyf]
      have h2 : (arrayLists quote col e.path_name e.alias_name (st.array_num + 1) e.arrayElems).2
          = "" := (arrayLists_snd_eq_empty_iff quote col e.path_name e.alias_name
            (st.array_num + 1) e.arrayElems).mpr hanyf
      rw [if_neg (by simp [htrig])]
      simp [processElement, harr, processArrayElement, h2]
  · have htrig : elemTriggersAux e = false := by
      simp [elemTriggersAux, harr]
    rw [if_neg (by simp [htrig])]
    simp [processElement, harr, processLeafElement]

theorem processElements_table_list (quote col : String) :
    ∀ (es : List Element) (st : GenState), ∃ s : String,
      (processElements quote col st es).table_list = st.table_list ++ s
        ∧ (s = "" ↔ elementsTriggerAux es = false) := by
  intro es
  induction es with
  | nil => intro st; exact ⟨"", by simp [processElements], by simp [elementsTriggerAux]⟩
  | cons e es ih =>
    intro st
    by_cases hp : e.path_name = ""
    · exact ⟨"", by simp [processElements, hp], by simp [elementsTriggerAux, hp]⟩
    · obtain ⟨s2, hs2, hiff2⟩ := ih (processElement quote col st e)
      by_cases ht : elemTriggersAux e = true
      · refine ⟨(",\n LATERAL FLATTEN(" ++ col ++ ":" ++ e.path_name ++ ") a"
            ++ toString (st.array_num + 1)) ++ s2, ?_, ?_⟩
        · have h1 : processElements quote col st (e :: es)
              = processElements quote col (processElement quote col st e) es := by
            simp [processElements, hp]
          rw [h1, hs2, processElement_table_list, if_pos ht, String.append_assoc]
        · have hne : (",\n LATERAL FLATTEN(" ++ col ++ ":" ++ e.path_name ++ ") a"
              ++ toString (st.array_num + 1)) ≠ "" :=
            flatten_clause_ne_empty col e.path_name (st.array_num + 1)
          have htrue : elementsTriggerAux (e :: es) = true := by
            simp [elementsTriggerAux, hp, ht]
          constructor
          · intro hc
            exact absurd ((append_eq_empty_iff _ _).mp hc).1 hne
          · intro hc
            rw [htrue] at hc
            simp at hc
      · refine ⟨s2, ?_, ?_⟩
        · have h1 : processElements quote col st (e :: es)
              = processElements quote col (processElement quote col st e) es := by
            simp [processElements, hp]
          rw [h1, hs2, processElement_table_list, if_neg ht]
        · rw [hiff2]
          have htf : elemTriggersAux e = false := by simpa using ht
          simp [elementsTriggerAux, hp, htf]

theorem processColumn_table_list (quote : String) (st : GenState) (c : ColumnMeta) :
    ∃ s : String, (processColumn quote st c).table_list = st.table_list ++ s
      ∧ (s = "" ↔ (if c.data_type = "VARIANT" then elementsTriggerAux c.elements else false)
          = false) := by
  by_cases h : c.data_type = "VARIANT"
  · obtain ⟨s, hs, hiff⟩ := processElements_table_list quote c.column_name c.elements st
    exact ⟨s, by simp [processColumn, h, hs], by simp [h, hiff]⟩
  · exact ⟨"", by simp [processColumn, h], by simp [h]⟩

theorem processColumns_table_list (quote : String) :
    ∀ (cols : List ColumnMeta) (st : GenState), ∃ s : String,
      (processColumns quote st cols).table_list = st.table_list ++ s
        ∧ (s = "" ↔ columnsTriggerAux cols = false) := by
  intro cols
  induction cols with
  | nil => intro st; exact ⟨"", by simp [processColumns], by simp [columnsTriggerAux]⟩
  | cons c cs ih =>
    intro st
    obtain ⟨s1, hs1, hiff1⟩ := processColumn_table_list quote st c
    obtain ⟨s2, hs2, hiff2⟩ := ih (processColumn quote st c)
    refine ⟨s1 ++ s2, ?_, ?_⟩
    · simp only [processColumns]
      rw [hs2, hs1, String.append_assoc]
    · rw [append_eq_empty_iff, hiff1, hiff2]
      simp [columnsTriggerAux, Bool.or_eq_false_iff]

/-- C6: the generated source list is the base table followed by a suffix
of auxiliary LATERAL FLATTEN sources, and that suffix is non-empty exactly
when some array reached by the run had an object-addressed element; in
particular a run whose arrays are all simple adds nothing after the base
table. -/
theorem c6_aux_source_iff (SCHEMA_NAME V_TAB_NM COLUMN_CASE : String)
    (cols : List ColumnMeta) :
    ∃ s : String,
      (runState SCHEMA_NAME V_TAB_NM COLUMN_CASE cols).table_list
          = (SCHEMA_NAME ++ "." ++ V_TAB_NM) ++ s
        ∧ (s = "" ↔ columnsTriggerAux cols = false) := by
  obtain ⟨s, hs, hiff⟩ := processColumns_table_list (alias_dbl_quote COLUMN_CASE) cols
    (initState SCHEMA_NAME V_TAB_NM)
  exact ⟨s, by simpa [runState, initState] using hs, hiff⟩

/-- C2 divergence exhibit: under match col case (COLUMN_CASE starting with
M) the alias of a non-array leaf fragment is emitted without double quotes,
while the alias of a simple-array fragment is quoted — the source comment
at lines 138-141 promises quotes for the leaf aliases too. -/
theorem c2_leaf_alias_unquoted :
    create_view_using_metadata "db" "s" "t" "match col case" "match datatypes"
      [⟨"j", "VARIANT",
        [⟨"\"n\"", "STRING", "n", []⟩,
         ⟨"\"r\"", "ARRAY", "r", [⟨"", "FLOAT", "", 0⟩]⟩]⟩] =
      "CREATE OR REPLACE VIEW t_VW AS \nSELECT \nj:\"n\"::STRING as j_n, \nj:\"r\"[0]::FLOAT as \"j_r_0\"\nFROM s.t" := by
  decide

